import Mathlib

/-!
Verification of the collage-composition core of a LINE-bot photo-editing
webhook service (`src/app/app.py`), as a shallow embedding.

The embedding covers the functions `edit_image`, `get_all_images`,
`upload_image` and the `merge` branch of `handle_postback`, together with
the PIL primitives they use (`Image.new`, `resize`, `crop`, `paste`).
Pure Python integer arithmetic is embedded with `Nat`/`Int`; Python `//`
on possibly negative integers is `Int.fdiv` (floor division); a Python
runtime error (ZeroDivisionError, AssertionError) is an `Except.error`.
-/

set_option maxRecDepth 100000

namespace PhotoBot

/-- A pixel sample (e.g. a packed RGB value). -/
abbrev Pixel := ℕ

/-- A raster image as PIL exposes it to `edit_image`: dimensions plus a
pixel lookup.  `pix x y` is the sample at column `x`, row `y`; values at
out-of-range coordinates never influence the embedded operations. -/
structure Img where
  width : ℕ
  height : ℕ
  pix : ℕ → ℕ → Pixel

/-- The constant `ON_A_SIDE = 1080` of `edit_image` (the side length S). -/
def ON_A_SIDE : ℕ := 1080

/-- `Image.new('RGB', (w, h))`: a canvas of the given size, all black. -/
def imageNew (w h : ℕ) : Img :=
  ⟨w, h, fun _ _ => 0⟩

/-- `Image.resize((w, h))`: the image rescaled to the given dimensions.
The resampling kernel is abstracted as nearest-neighbour sampling; the
claims under check depend only on the result's dimensions, on resampling
being a deterministic function of the source pixels, and on it being the
identity when the size is unchanged — all of which hold of PIL's kernels
on exact integer data. -/
def Img.resize (img : Img) (w h : ℕ) : Img :=
  ⟨w, h, fun x y => img.pix (x * img.width / w) (y * img.height / h)⟩

/-- `Image.crop((left, upper, right, lower))`: size
`(right - left, lower - upper)`; regions of the box outside the source
image are filled with black (zero), as PIL pads them. -/
def Img.crop (img : Img) (left upper right lower : ℤ) : Img where
  width := (right - left).toNat
  height := (lower - upper).toNat
  pix x y :=
    if 0 ≤ left + (x : ℤ) ∧ left + (x : ℤ) < (img.width : ℤ) ∧
       0 ≤ upper + (y : ℤ) ∧ upper + (y : ℤ) < (img.height : ℤ) then
      img.pix (left + (x : ℤ)).toNat (upper + (y : ℤ)).toNat
    else 0

/-- `canvas.paste(img, (x, y))`: the canvas with `img` written at offset
`(x, y)`, clipped to the canvas bounds; the canvas size is unchanged. -/
def Img.paste (canvas img : Img) (x y : ℕ) : Img where
  width := canvas.width
  height := canvas.height
  pix px py :=
    if x ≤ px ∧ px < x + img.width ∧ y ≤ py ∧ py < y + img.height ∧
       px < canvas.width ∧ py < canvas.height then
      img.pix (px - x) (py - y)
    else canvas.pix px py

/-- The Python runtime errors reachable inside `edit_image`:
`ZeroDivisionError` (from `//` or `/` with divisor 0), the `ValueError`
PIL raises when `Image.resize` is given a non-positive target dimension
("height and width must be > 0"), and a failure of the final
`assert new_image.size == (ON_A_SIDE, ON_A_SIDE)`. -/
inductive EditError where
  | zeroDivision
  | valueError
  | assertionFailed
deriving DecidableEq

/-! ### IEEE-754 binary64 arithmetic, as exact integer computation

Python evaluates `image.height * (ON_A_SIDE / image.width)` in double
precision: the integer quotient is correctly rounded to binary64
(round to nearest, ties to even), the height is converted to binary64,
the product is again correctly rounded, and `int` truncates toward
zero.  A positive double in the normal range is modelled exactly as a
mantissa–exponent pair `(m, e)` with value `m · 2^e` and
`2^52 ≤ m < 2^53`. -/

/-- Fuel-bounded `⌊log₂ n⌋` (0 for n = 0), by repeated halving, so the
kernel can evaluate it on literals. -/
def log2Aux : ℕ → ℕ → ℕ
  | 0, _ => 0
  | fuel + 1, n => if n < 2 then 0 else log2Aux fuel (n / 2) + 1

/-- `⌊log₂ n⌋` for n > 0 (0 for n = 0). -/
def natLog2 (n : ℕ) : ℕ := log2Aux n n

/-- Round-to-nearest-even integer division a / b (for b > 0): the
rounding step of IEEE-754 arithmetic. -/
def rneDivNat (a b : ℕ) : ℕ :=
  let q := a / b
  let r := a % b
  if 2 * r < b then q
  else if b < 2 * r then q + 1
  else if q % 2 = 0 then q else q + 1

/-- `⌊log₂ (p / q)⌋` for p, q > 0. -/
def ratLog2 (p q : ℕ) : ℤ :=
  let c : ℤ := (natLog2 p : ℤ) - (natLog2 q : ℤ)
  if 0 ≤ c then (if q * 2 ^ c.toNat ≤ p then c else c - 1)
  else (if q ≤ p * 2 ^ (-c).toNat then c else c - 1)

/-- The binary64 double nearest to p / q (round to nearest, ties to
even), as a normalized mantissa–exponent pair; (0, 0) for p = 0 or
q = 0. -/
def floatOfRat (p q : ℕ) : ℕ × ℤ :=
  if p = 0 ∨ q = 0 then (0, 0)
  else
    let E := ratLog2 p q
    let s : ℤ := 52 - E
    let m := if 0 ≤ s then rneDivNat (p * 2 ^ s.toNat) q
      else rneDivNat p (q * 2 ^ (-s).toNat)
    if m = 2 ^ 53 then (2 ^ 52, E - 51) else (m, E - 52)

/-- The binary64 double of a Python int (exact below 2^53, rounded
above). -/
def floatOfNat (n : ℕ) : ℕ × ℤ := floatOfRat n 1

/-- Binary64 product of two non-negative doubles: the exact mantissa
product, re-rounded to 53 bits. -/
def floatMul (x y : ℕ × ℤ) : ℕ × ℤ :=
  let p := floatOfRat (x.1 * y.1) 1
  (p.1, p.2 + x.2 + y.2)

/-- Python `int(d)` for a non-negative double d: truncation toward zero
(which is the floor, d being non-negative). -/
def floatTruncNat (x : ℕ × ℤ) : ℕ :=
  if 0 ≤ x.2 then x.1 * 2 ^ x.2.toNat else x.1 / 2 ^ (-x.2).toNat

/-- `int(image.height * (ON_A_SIDE / image.width))` exactly as Python
evaluates it: binary64 division, binary64 product, truncation.  (For
w = 0 Python raises ZeroDivisionError instead, which `editStep` checks
first; the value returned here at w = 0 is never consulted.) -/
def resizeHeight (w h : ℕ) : ℕ :=
  floatTruncNat (floatMul (floatOfNat h) (floatOfRat ON_A_SIDE w))

/-- The resize call of the loop body:
`image.resize((ON_A_SIDE, int(image.height * (ON_A_SIDE / image.width))))`. -/
def scaleStep (image : Img) : Img :=
  image.resize ON_A_SIDE (resizeHeight image.width image.height)

/-- The crop call of the loop body:
`image.crop((0, (image.height - aim_height) // 2, ON_A_SIDE,
(image.height + aim_height) // 2))`; Python `//` is floor division. -/
def cropStep (image : Img) (aim : ℕ) : Img :=
  image.crop 0 (((image.height : ℤ) - (aim : ℤ)).fdiv 2) (ON_A_SIDE : ℤ)
    (((image.height : ℤ) + (aim : ℤ)).fdiv 2)

/-- One iteration of the `for i, image in enumerate(images)` loop of
`edit_image`, acting on the canvas and `cur_height`.  `n` is
`len(images)`, `secH` is `SECTION_HEIGHT`.  On the resize line, a
source image of width 0 makes the float division
`ON_A_SIDE / image.width` raise ZeroDivisionError, and a computed
target height of 0 (an image with `int(h·(1080/w)) = 0`) makes PIL's
`resize` raise ValueError. -/
def editStep (n secH i : ℕ) (image canvas : Img) (cur : ℕ) :
    Except EditError (Img × ℕ) :=
  if image.width = 0 then .error .zeroDivision
  else if resizeHeight image.width image.height = 0 then .error .valueError
  else
    let aim : ℕ := if i ≠ n - 1 then secH else 1080 - cur
    let cropped := cropStep (scaleStep image) aim
    .ok (canvas.paste cropped 0 cur, cur + cropped.height)

/-- The whole loop of `edit_image`, threading index, canvas and
`cur_height`. -/
def editLoop (n secH : ℕ) : ℕ → List Img → Img → ℕ → Except EditError (Img × ℕ)
  | _, [], canvas, cur => .ok (canvas, cur)
  | i, image :: rest, canvas, cur =>
    match editStep n secH i image canvas cur with
    | .error e => .error e
    | .ok (c, h) => editLoop n secH (i + 1) rest c h

/-- `edit_image` on an already-fetched image list: computes
`SECTION_HEIGHT = ON_A_SIDE // len(images)` (ZeroDivisionError when the
list is empty), runs the paste loop on a fresh 1080×1080 canvas, then
checks `assert new_image.size == (ON_A_SIDE, ON_A_SIDE)`. -/
def edit_image (images : List Img) : Except EditError Img :=
  if images.length = 0 then .error .zeroDivision
  else
    match editLoop images.length (ON_A_SIDE / images.length) 0 images
        (imageNew ON_A_SIDE ON_A_SIDE) 0 with
    | .error e => .error e
    | .ok (c, _) =>
      if c.width = ON_A_SIDE ∧ c.height = ON_A_SIDE then .ok c
      else .error .assertionFailed

/-- One record of the Gyazo image list: its creation timestamp (the sort
key of `get_all_images`), its id, and the image behind its url. -/
structure StoredImage where
  created_at : ℕ
  image_id : ℕ
  image : Img

/-- `images.sort(key=lambda x: x["created_at"])`: a stable ascending sort
of the store by creation timestamp. -/
def sortStore (s : List StoredImage) : List StoredImage :=
  s.mergeSort fun a b => a.created_at ≤ b.created_at

/-- `get_all_images`: fetches the image list, sorts it in place by
`created_at`, and downloads the image behind each record's url. -/
def get_all_images (s : List StoredImage) : List Img :=
  (sortStore s).map StoredImage.image

/-- `upload_image`: POSTs the encoded canvas to the hosting service,
which appends a new record (with a service-chosen timestamp `t` and id
`id`) to the store. -/
def upload_image (s : List StoredImage) (img : Img) (t id : ℕ) :
    List StoredImage :=
  s ++ [⟨t, id, img⟩]

/-- The `merge` branch of `handle_postback`: it calls `edit_image`, which
composes the stored images and uploads the composite; the result is the
store contents after a successful run.  No deletion of the source images
occurs anywhere on this path. -/
def handle_postback_merge (s : List StoredImage) (t id : ℕ) :
    Except EditError (List StoredImage) :=
  match edit_image (get_all_images s) with
  | .error e => .error e
  | .ok c => .ok (upload_image s c t id)

/-- Pixel-identical images: equal dimensions and equal samples at every
in-range coordinate (the spec's notion of output equality). -/
def pixEq (a b : Img) : Prop :=
  a.width = b.width ∧ a.height = b.height ∧
    ∀ x y, x < a.width → y < a.height → a.pix x y = b.pix x y

/-- Pixel-identity lifted to `edit_image` results: successful runs must
be pixel-identical, failing runs must fail identically. -/
def pixEqE : Except EditError Img → Except EditError Img → Prop
  | .ok a, .ok b => pixEq a b
  | .error e, .error f => e = f
  | _, _ => False

/-- The `aim_height` chosen in iteration `i` of the loop of `edit_image`
for `n` images, with `cur_height` replaced by its invariant value
`(ON_A_SIDE / n) * i` (established below as `editLoop_take`): the target
band height of band `i`. -/
def bandAim (n i : ℕ) : ℕ :=
  if i ≠ n - 1 then ON_A_SIDE / n else ON_A_SIDE - ON_A_SIDE / n * (n - 1)

/-! ### Helper lemmas about the embedded operations -/

theorem fdiv_add_sub_aim (h : ℤ) (a : ℕ) :
    (h + (a : ℤ)).fdiv 2 - (h - (a : ℤ)).fdiv 2 = (a : ℤ) := by
  rw [Int.fdiv_eq_ediv _ (by norm_num), Int.fdiv_eq_ediv _ (by norm_num)]
  omega

theorem cropStep_height (image : Img) (aim : ℕ) :
    (cropStep image aim).height = aim := by
  simp only [cropStep, Img.crop]
  rw [fdiv_add_sub_aim]
  exact Int.toNat_natCast aim

theorem cropStep_width (image : Img) (aim : ℕ) :
    (cropStep image aim).width = ON_A_SIDE := by
  simp [cropStep, Img.crop, ON_A_SIDE]

theorem paste_width (canvas img : Img) (x y : ℕ) :
    (canvas.paste img x y).width = canvas.width := rfl

theorem paste_height (canvas img : Img) (x y : ℕ) :
    (canvas.paste img x y).height = canvas.height := rfl

theorem editStep_eq (n secH i : ℕ) (image canvas : Img) (cur : ℕ)
    (h : image.width ≠ 0)
    (hr : resizeHeight image.width image.height ≠ 0) :
    editStep n secH i image canvas cur =
      .ok (canvas.paste
            (cropStep (scaleStep image) (if i ≠ n - 1 then secH else 1080 - cur))
            0 cur,
          cur + (if i ≠ n - 1 then secH else 1080 - cur)) := by
  simp [editStep, h, hr, cropStep_height]

theorem editLoop_append (n secH i : ℕ) (xs ys : List Img) (canvas : Img)
    (cur : ℕ) :
    editLoop n secH i (xs ++ ys) canvas cur =
      match editLoop n secH i xs canvas cur with
      | .error e => .error e
      | .ok (c, k) => editLoop n secH (i + xs.length) ys c k := by
  induction xs generalizing i canvas cur with
  | nil => simp [editLoop]
  | cons hd tl ih =>
    simp only [List.cons_append, editLoop]
    cases editStep n secH i hd canvas cur with
    | error e => rfl
    | ok p =>
      cases p with
      | mk c k =>
        simp only [List.length_cons]
        rw [show i + (tl.length + 1) = i + 1 + tl.length from by omega]
        exact ih (i + 1) c k

theorem editLoop_dims (n secH : ℕ) (l : List Img) :
    ∀ (i : ℕ) (canvas : Img) (cur : ℕ),
      (∀ im ∈ l, 0 < im.width ∧ resizeHeight im.width im.height ≠ 0) →
      ∃ c k, editLoop n secH i l canvas cur = .ok (c, k) ∧
        c.width = canvas.width ∧ c.height = canvas.height := by
  induction l with
  | nil => intro i canvas cur _; exact ⟨canvas, cur, rfl, rfl, rfl⟩
  | cons hd tl ih =>
    intro i canvas cur hw
    have hhd : hd.width ≠ 0 := by
      have := (hw hd (List.mem_cons_self _ _)).1; omega
    have hhr : resizeHeight hd.width hd.height ≠ 0 :=
      (hw hd (List.mem_cons_self _ _)).2
    obtain ⟨c, k, hloop, hcw, hch⟩ :=
      ih (i + 1)
        (canvas.paste
          (cropStep (scaleStep hd) (if i ≠ n - 1 then secH else 1080 - cur))
          0 cur)
        (cur + (if i ≠ n - 1 then secH else 1080 - cur))
        (fun im him => hw im (List.mem_cons_of_mem _ him))
    refine ⟨c, k, ?_, ?_, ?_⟩
    · simp only [editLoop, editStep_eq n secH i hd canvas cur hhd hhr]
      exact hloop
    · rw [hcw, paste_width]
    · rw [hch, paste_height]

theorem edit_image_ok (images : List Img) (hne : images ≠ [])
    (hw : ∀ im ∈ images, 0 < im.width ∧
      resizeHeight im.width im.height ≠ 0) :
    ∃ c, edit_image images = .ok c ∧
      c.width = ON_A_SIDE ∧ c.height = ON_A_SIDE := by
  obtain ⟨c, k, hloop, hcw, hch⟩ :=
    editLoop_dims images.length (ON_A_SIDE / images.length) images 0
      (imageNew ON_A_SIDE ON_A_SIDE) 0 hw
  have hlen : images.length ≠ 0 := by
    simpa [List.length_eq_zero] using hne
  have hcw' : c.width = ON_A_SIDE := hcw
  have hch' : c.height = ON_A_SIDE := hch
  refine ⟨c, ?_, hcw', hch'⟩
  simp [edit_image, hlen, hloop, hcw', hch']

theorem bandAim_of_lt (n i : ℕ) (h : i < n - 1) :
    bandAim n i = ON_A_SIDE / n := by
  simp only [bandAim]
  rw [if_pos (by omega : i ≠ n - 1)]

theorem bandAim_last (n : ℕ) :
    bandAim n (n - 1) = ON_A_SIDE - ON_A_SIDE / n * (n - 1) := by
  simp [bandAim]

theorem secH_mul_le (n : ℕ) : ON_A_SIDE / n * (n - 1) ≤ ON_A_SIDE :=
  le_trans (Nat.mul_le_mul_left _ (by omega)) (Nat.div_mul_le_self _ n)

theorem sum_bandAim_take (n k : ℕ) (hk : k ≤ n - 1) :
    ∑ j ∈ Finset.range k, bandAim n j = ON_A_SIDE / n * k := by
  rw [Finset.sum_congr rfl
    (fun j hj => bandAim_of_lt n j
      (by have := Finset.mem_range.mp hj; omega))]
  simp [mul_comm]

theorem sum_bandAim (n : ℕ) (hn : 0 < n) :
    ∑ j ∈ Finset.range n, bandAim n j = ON_A_SIDE := by
  obtain ⟨m, rfl⟩ : ∃ m, n = m + 1 := ⟨n - 1, by omega⟩
  rw [Finset.sum_range_succ, sum_bandAim_take (m + 1) m (by omega)]
  have h1 := secH_mul_le (m + 1)
  have h2 : bandAim (m + 1) m = ON_A_SIDE - ON_A_SIDE / (m + 1) * m := by
    have := bandAim_last (m + 1)
    simpa using this
  simp only [Nat.add_sub_cancel] at h1
  omega

theorem editLoop_take (imgs : List Img)
    (hw : ∀ im ∈ imgs, 0 < im.width ∧
      resizeHeight im.width im.height ≠ 0) :
    ∀ k, k ≤ imgs.length →
      ∃ c, editLoop imgs.length (ON_A_SIDE / imgs.length) 0 (imgs.take k)
          (imageNew ON_A_SIDE ON_A_SIDE) 0 =
        .ok (c, ∑ j ∈ Finset.range k, bandAim imgs.length j) := by
  intro k
  induction k with
  | zero =>
    intro _
    exact ⟨imageNew ON_A_SIDE ON_A_SIDE, by simp [editLoop]⟩
  | succ k ih =>
    intro hk1
    obtain ⟨c, hc⟩ := ih (by omega)
    have hklt : k < imgs.length := by omega
    have hwk : imgs[k].width ≠ 0 := by
      have := (hw imgs[k] (List.getElem_mem hklt)).1; omega
    have hrk : resizeHeight imgs[k].width imgs[k].height ≠ 0 :=
      (hw imgs[k] (List.getElem_mem hklt)).2
    have hlen : (imgs.take k).length = k := by
      simp [List.length_take]; omega
    have hget : imgs[k]? = some imgs[k] := List.getElem?_eq_getElem hklt
    rw [List.take_succ, editLoop_append, hc, hget]
    simp only [Option.toList_some, hlen, Nat.zero_add]
    have haim :
        (if k ≠ imgs.length - 1 then ON_A_SIDE / imgs.length
          else 1080 - ∑ j ∈ Finset.range k, bandAim imgs.length j) =
        bandAim imgs.length k := by
      by_cases hkl : k = imgs.length - 1
      · rw [if_neg (by simpa using hkl)]
        rw [sum_bandAim_take imgs.length k (by omega), hkl, bandAim_last]
        simp [ON_A_SIDE]
      · rw [if_pos hkl, bandAim_of_lt imgs.length k (by omega)]
    refine ⟨c.paste
      (cropStep (scaleStep imgs[k]) (bandAim imgs.length k)) 0
      (∑ j ∈ Finset.range k, bandAim imgs.length j), ?_⟩
    simp only [editLoop, editStep_eq _ _ _ _ _ _ hwk hrk, haim,
      Finset.sum_range_succ]

/-! ### Concrete images used by witnesses and counterexamples -/

/-- A plain 1080×1080 all-black source image. -/
def sampleImg : Img := ⟨1080, 1080, fun _ _ => 0⟩

/-- A 1080-wide source image of height 1000 (spec's N = 3 scenario). -/
def img1000 : Img := ⟨1080, 1000, fun _ _ => 0⟩

/-- A 1080-wide source image of height 1500 (spec's N = 3 scenario). -/
def img1500 : Img := ⟨1080, 1500, fun _ _ => 0⟩

/-- A 1080-wide source image of height 800 (spec's N = 3 scenario). -/
def img800 : Img := ⟨1080, 800, fun _ _ => 0⟩

/-- A 1081×1 source image: its width is positive, but scaling it to
width 1080 computes target height `int(1 * (1080/1081)) = 0`, which
PIL's `resize` rejects with ValueError. -/
def img1081 : Img := ⟨1081, 1, fun _ _ => 0⟩

theorem sampleImg_valid :
    ∀ im ∈ [sampleImg],
      0 < im.width ∧ resizeHeight im.width im.height ≠ 0 := by
  intro im him
  rw [List.mem_singleton] at him
  subst him
  exact ⟨by norm_num [sampleImg], by decide⟩

theorem scenario3_valid :
    ∀ im ∈ [img1000, img1500, img800],
      0 < im.width ∧ resizeHeight im.width im.height ≠ 0 := by
  intro im him
  simp only [List.mem_cons, List.not_mem_nil, or_false] at him
  rcases him with h | h | h <;> subst h
  · exact ⟨by norm_num [img1000], by decide⟩
  · exact ⟨by norm_num [img1500], by decide⟩
  · exact ⟨by norm_num [img800], by decide⟩

/-! ### Claim theorems -/

/-- C1 counterexample: the 1081×1 image has positive width, yet
composing the non-empty list `[img1081]` does not produce a composite
at all — the computed resize height `int(1 * (1080/1081))` is 0, so
PIL's `resize` raises ValueError before any band is placed. -/
theorem C1_counterexample_resize_error :
    0 < img1081.width ∧
      edit_image [img1081] = .error EditError.valueError :=
  ⟨by norm_num [img1081], rfl⟩

/-- C1 amended: for every non-empty list of source images, each with
positive width and with non-zero computed resize height
`int(h·(1080/w))` (so that PIL's resize succeeds), `edit_image`
succeeds and produces a canvas of exactly
`ON_A_SIDE × ON_A_SIDE` = 1080×1080 pixels, and the final dimension
assertion never fails. -/
theorem C1_edit_image_square (images : List Img) (hne : images ≠ [])
    (hw : ∀ im ∈ images, 0 < im.width ∧
      resizeHeight im.width im.height ≠ 0) :
    (∃ c, edit_image images = .ok c ∧
      c.width = ON_A_SIDE ∧ c.height = ON_A_SIDE) ∧
      edit_image images ≠ .error .assertionFailed := by
  obtain ⟨c, hok, hcw, hch⟩ := edit_image_ok images hne hw
  refine ⟨⟨c, hok, hcw, hch⟩, ?_⟩
  rw [hok]
  exact fun h => Except.noConfusion h

/-- C1 witness: the theorem applied to the singleton list `[sampleImg]`. -/
theorem C1_witness :
    (([sampleImg] : List Img) ≠ [] ∧ ∀ im ∈ [sampleImg],
      0 < im.width ∧ resizeHeight im.width im.height ≠ 0) ∧
      ((∃ c, edit_image [sampleImg] = .ok c ∧
        c.width = ON_A_SIDE ∧ c.height = ON_A_SIDE) ∧
        edit_image [sampleImg] ≠ .error .assertionFailed) :=
  ⟨⟨by simp, sampleImg_valid⟩,
    C1_edit_image_square [sampleImg] (by simp) sampleImg_valid⟩

/-- C2 counterexample: composing with zero stored images raises
ZeroDivisionError (from `ON_A_SIDE // len(images)`); there is no
`EmptyInputError` anywhere in the code, so the claim is false at the
concrete input `[]`. -/
theorem C2_counterexample_zero_images :
    edit_image [] = .error .zeroDivision := rfl

/-- C2 amended: composing with zero stored images fails with a
division-by-zero error (the code has no EmptyInputError and performs no
empty-input check before dividing by `len(images)`). -/
theorem C2_empty_fails_zero_division (images : List Img)
    (h : images.length = 0) :
    edit_image images = .error .zeroDivision := by
  simp [edit_image, h]

/-- C2 witness: the amended theorem applied to the empty list. -/
theorem C2_witness :
    ([] : List Img).length = 0 ∧ edit_image [] = .error .zeroDivision :=
  ⟨rfl, C2_empty_fails_zero_division [] rfl⟩

/-- C3: for `ON_A_SIDE` ≥ n ≥ 1, every band i < n−1 has target height
`ON_A_SIDE / n` (floor), the last band has target height
`ON_A_SIDE − (ON_A_SIDE / n)·(n−1)`, and the band target heights sum to
exactly `ON_A_SIDE`: the division remainder is absorbed by the last
band. -/
theorem C3_band_heights (n : ℕ) (h1 : 1 ≤ n) (_h2 : n ≤ ON_A_SIDE) :
    (∀ i, i < n - 1 → bandAim n i = ON_A_SIDE / n) ∧
      bandAim n (n - 1) = ON_A_SIDE - ON_A_SIDE / n * (n - 1) ∧
      ∑ i ∈ Finset.range n, bandAim n i = ON_A_SIDE :=
  ⟨fun i hi => bandAim_of_lt n i hi, bandAim_last n, sum_bandAim n h1⟩

/-- C3 witness: the theorem applied at n = 3. -/
theorem C3_witness :
    ((1 : ℕ) ≤ 3 ∧ 3 ≤ ON_A_SIDE) ∧
      ((∀ i, i < 3 - 1 → bandAim 3 i = ON_A_SIDE / 3) ∧
        bandAim 3 (3 - 1) = ON_A_SIDE - ON_A_SIDE / 3 * (3 - 1) ∧
        ∑ i ∈ Finset.range 3, bandAim 3 i = ON_A_SIDE) :=
  ⟨⟨by norm_num, by norm_num [ON_A_SIDE]⟩,
    C3_band_heights 3 (by norm_num) (by norm_num [ON_A_SIDE])⟩

/-- C4 counterexample: at width 1000, height 999, the code's resize
height `int(999 * (1080 / 1000))` evaluates (in binary64) to 1078,
while the claimed `round(999·1080/1000)` is 1079 (computed here as
half-up rounding `(2·h·S + w) / (2·w)`; the exact value 1078.92 rounds
to 1079 under any nearest-integer rounding). -/
theorem C4_counterexample_truncation :
    resizeHeight 1000 999 = 1078 ∧
      (2 * (999 * ON_A_SIDE) + 1000) / (2 * 1000) = 1079 ∧
      (1078 : ℕ) ≠ 1079 := by
  refine ⟨by decide, by norm_num [ON_A_SIDE], by norm_num⟩

/-- C4 amended: the scaling step resizes each source image of positive
width to width `ON_A_SIDE` and height `int(h * (ON_A_SIDE / w))`
evaluated in IEEE-754 binary64 arithmetic with final truncation toward
zero; this is not rounding to the nearest integer (see the
counterexample), and it is not the exact floor `⌊h·ON_A_SIDE/w⌋`
either: at w = 31, h = 93 the program computes 3239 while the exact
quotient is the integer 3240. -/
theorem C4_scale_dims (img : Img) (_h : 0 < img.width) :
    ((scaleStep img).width = ON_A_SIDE ∧
      (scaleStep img).height = resizeHeight img.width img.height) ∧
      (resizeHeight 31 93 = 3239 ∧ 93 * ON_A_SIDE / 31 = 3240) :=
  ⟨⟨rfl, rfl⟩, by decide, by decide⟩

/-- C4 witness: the amended theorem applied to `sampleImg`. -/
theorem C4_witness :
    0 < sampleImg.width ∧
      (((scaleStep sampleImg).width = ON_A_SIDE ∧
        (scaleStep sampleImg).height =
          resizeHeight sampleImg.width sampleImg.height) ∧
        (resizeHeight 31 93 = 3239 ∧ 93 * ON_A_SIDE / 31 = 3240)) :=
  ⟨by norm_num [sampleImg], C4_scale_dims sampleImg (by norm_num [sampleImg])⟩

/-- C5 counterexample: for the non-empty list `[img1081]` (positive
width) no band is ever pasted: the loop aborts with PIL's ValueError on
the resize of the first image, before reaching the paste call, so there
is no band offset at all. -/
theorem C5_counterexample_no_paste :
    0 < img1081.width ∧
      editLoop 1 (ON_A_SIDE / 1) 0 [img1081]
        (imageNew ON_A_SIDE ON_A_SIDE) 0 = .error EditError.valueError :=
  ⟨by norm_num [img1081], rfl⟩

/-- C5 amended: for every list of source images of positive width and
non-zero computed resize height (so every resize succeeds), each band
is pasted at horizontal offset 0 (the paste call is
`new_image.paste(image, (0, cur_height))`, embedded in `editStep`), and
after k bands the cumulative paste offset `cur_height` — the vertical
offset at which band k is pasted — equals the sum of the target heights
of bands 0..k−1; in the concrete 1080/3 scenario the three band target
heights are 360 and the band start offsets are 0, 360, 720. -/
theorem C5_paste_offsets (imgs : List Img)
    (hw : ∀ im ∈ imgs, 0 < im.width ∧
      resizeHeight im.width im.height ≠ 0)
    (k : ℕ) (hk : k ≤ imgs.length) :
    (∃ c, editLoop imgs.length (ON_A_SIDE / imgs.length) 0 (imgs.take k)
        (imageNew ON_A_SIDE ON_A_SIDE) 0 =
      .ok (c, ∑ j ∈ Finset.range k, bandAim imgs.length j)) ∧
      (bandAim 3 0 = 360 ∧ bandAim 3 1 = 360 ∧ bandAim 3 2 = 360 ∧
        ∑ j ∈ Finset.range 0, bandAim 3 j = 0 ∧
        ∑ j ∈ Finset.range 1, bandAim 3 j = 360 ∧
        ∑ j ∈ Finset.range 2, bandAim 3 j = 720) := by
  refine ⟨editLoop_take imgs hw k hk, ?_⟩
  refine ⟨?_, ?_, ?_, ?_, ?_, ?_⟩ <;>
    simp [Finset.sum_range_succ, bandAim, ON_A_SIDE]

/-- C5 witness: the theorem applied to the spec's three-image scenario
(heights 1000, 1500, 800 at width 1080), taking the first two bands. -/
theorem C5_witness :
    ((∀ im ∈ [img1000, img1500, img800],
        0 < im.width ∧ resizeHeight im.width im.height ≠ 0) ∧
      2 ≤ ([img1000, img1500, img800] : List Img).length) ∧
      ((∃ c, editLoop ([img1000, img1500, img800] : List Img).length
          (ON_A_SIDE / ([img1000, img1500, img800] : List Img).length) 0
          ([img1000, img1500, img800].take 2)
          (imageNew ON_A_SIDE ON_A_SIDE) 0 =
        .ok (c, ∑ j ∈ Finset.range 2,
          bandAim ([img1000, img1500, img800] : List Img).length j)) ∧
        (bandAim 3 0 = 360 ∧ bandAim 3 1 = 360 ∧ bandAim 3 2 = 360 ∧
          ∑ j ∈ Finset.range 0, bandAim 3 j = 0 ∧
          ∑ j ∈ Finset.range 1, bandAim 3 j = 360 ∧
          ∑ j ∈ Finset.range 2, bandAim 3 j = 720)) :=
  ⟨⟨scenario3_valid, by norm_num⟩,
    C5_paste_offsets [img1000, img1500, img800] scenario3_valid
      2 (by norm_num)⟩

/-- A one-image store state: a single source image uploaded at
timestamp 0 with id 0. -/
def store1 : List StoredImage := [⟨0, 0, sampleImg⟩]

theorem get_all_images_store1 : get_all_images store1 = [sampleImg] := by
  simp [get_all_images, sortStore, store1]

/-- C6 counterexample: starting from the one-image store `store1`, the
merge postback succeeds, yet afterwards the store still holds the source
image (created_at 0) alongside the freshly uploaded composite
(created_at 7): the store is not cleared. -/
theorem C6_counterexample_store_kept :
    (handle_postback_merge store1 7 9).isOk = true ∧
      ((handle_postback_merge store1 7 9).toOption.getD []).map
        StoredImage.created_at = [0, 7] := by
  have h := get_all_images_store1
  constructor <;> · simp only [handle_postback_merge, h]; rfl

/-- C6 amended: after a composition completes successfully and the
composite is uploaded, the Image Store is NOT cleared — it holds exactly
the original source entries followed by the uploaded composite; sources
are removed only by the separate explicit delete postback. -/
theorem C6_merge_keeps_sources (s : List StoredImage) (t id : ℕ)
    (h : (edit_image (get_all_images s)).isOk = true) :
    ∃ c, edit_image (get_all_images s) = .ok c ∧
      handle_postback_merge s t id = .ok (s ++ [⟨t, id, c⟩]) ∧
      ∀ e ∈ s, e ∈ s ++ [⟨t, id, c⟩] := by
  cases he : edit_image (get_all_images s) with
  | error e => rw [he] at h; exact absurd h (by simp [Except.isOk, Except.toBool])
  | ok c =>
    refine ⟨c, rfl, ?_, fun e he' => List.mem_append_left _ he'⟩
    simp [handle_postback_merge, he, upload_image]

/-- C6 witness: the amended theorem applied to the one-image store. -/
theorem C6_witness :
    (edit_image (get_all_images store1)).isOk = true ∧
      ∃ c, edit_image (get_all_images store1) = .ok c ∧
        handle_postback_merge store1 7 9 = .ok (store1 ++ [⟨7, 9, c⟩]) ∧
        ∀ e ∈ store1, e ∈ store1 ++ [⟨7, 9, c⟩] :=
  ⟨by rw [get_all_images_store1]; rfl,
    C6_merge_keeps_sources store1 7 9 (by rw [get_all_images_store1]; rfl)⟩

/-- C7: for every store state, `get_all_images` sorts the stored records
ascending by `created_at` (the arrival rank), the sorted sequence is a
permutation of the store, and the list handed to the composer is exactly
the image of that sorted sequence. -/
theorem C7_images_sorted (s : List StoredImage) :
    List.Pairwise
      (fun a b : StoredImage => a.created_at ≤ b.created_at) (sortStore s) ∧
      (sortStore s).Perm s ∧
      get_all_images s = (sortStore s).map StoredImage.image := by
  refine ⟨?_, List.mergeSort_perm s _, rfl⟩
  have h := @List.sorted_mergeSort StoredImage
    (fun a b => decide (a.created_at ≤ b.created_at))
    (fun a b c hab hbc => by
      simp only [decide_eq_true_eq] at *; omega)
    (fun a b => by
      simpa [Bool.or_eq_true, decide_eq_true_eq] using
        Nat.le_total a.created_at b.created_at)
    s
  exact h.imp fun hab => by simpa using hab

/-- C8: composition is deterministic — composing the same ordered input
twice (no intervening mutation, i.e. equal input lists) gives the very
same result, and in particular pixel-identical output canvases. -/
theorem C8_deterministic (l1 l2 : List Img) (h : l1 = l2) :
    edit_image l1 = edit_image l2 ∧
      pixEqE (edit_image l1) (edit_image l2) := by
  subst h
  refine ⟨rfl, ?_⟩
  cases edit_image l1 with
  | error e => exact rfl
  | ok c => exact ⟨rfl, rfl, fun x y _ _ => rfl⟩

/-- C8 witness: the theorem applied to two copies of the same list. -/
theorem C8_witness :
    ([sampleImg] : List Img) = [sampleImg] ∧
      (edit_image [sampleImg] = edit_image [sampleImg] ∧
        pixEqE (edit_image [sampleImg]) (edit_image [sampleImg])) :=
  ⟨rfl, C8_deterministic [sampleImg] [sampleImg] rfl⟩

/-! ### Pixel-level facts about two-image composites -/

/-- The band cut from a source image for target height `aim`: the loop
body's crop of the scaled image. -/
def bandOf (img : Img) (aim : ℕ) : Img :=
  cropStep (scaleStep img) aim

theorem bandOf_width (img : Img) (aim : ℕ) :
    (bandOf img aim).width = ON_A_SIDE :=
  cropStep_width _ _

theorem bandOf_height (img : Img) (aim : ℕ) :
    (bandOf img aim).height = aim :=
  cropStep_height _ _

theorem imageNew_width (w h : ℕ) : (imageNew w h).width = w := rfl

theorem imageNew_height (w h : ℕ) : (imageNew w h).height = h := rfl

theorem editStep_eq_mid (n secH i : ℕ) (image canvas : Img) (cur : ℕ)
    (h : image.width ≠ 0)
    (hr : resizeHeight image.width image.height ≠ 0) (hi : i ≠ n - 1) :
    editStep n secH i image canvas cur =
      .ok (canvas.paste (bandOf image secH) 0 cur, cur + secH) := by
  rw [editStep_eq n secH i image canvas cur h hr, if_pos hi]
  rfl

theorem editStep_eq_last (n secH i : ℕ) (image canvas : Img) (cur : ℕ)
    (h : image.width ≠ 0)
    (hr : resizeHeight image.width image.height ≠ 0) (hi : i = n - 1) :
    editStep n secH i image canvas cur =
      .ok (canvas.paste (bandOf image (1080 - cur)) 0 cur,
        cur + (1080 - cur)) := by
  rw [editStep_eq n secH i image canvas cur h hr, if_neg (by omega)]
  rfl

theorem editLoop_cons_ok (n secH i : ℕ) (image : Img) (rest : List Img)
    (canvas : Img) (cur : ℕ) (c : Img) (k : ℕ)
    (h : editStep n secH i image canvas cur = .ok (c, k)) :
    editLoop n secH i (image :: rest) canvas cur =
      editLoop n secH (i + 1) rest c k := by
  simp only [editLoop, h]

theorem edit_image_pair (X Y : Img) (hX : X.width ≠ 0) (hY : Y.width ≠ 0)
    (hXr : resizeHeight X.width X.height ≠ 0)
    (hYr : resizeHeight Y.width Y.height ≠ 0) :
    ∃ C, edit_image [X, Y] = .ok C ∧
      C.width = ON_A_SIDE ∧ C.height = ON_A_SIDE ∧
      (∀ x y, x < 1080 → y < 540 →
        C.pix x y = (bandOf X 540).pix x y) ∧
      (∀ x y, x < 1080 → 540 ≤ y → y < 1080 →
        C.pix x y = (bandOf Y 540).pix x (y - 540)) := by
  refine ⟨((imageNew ON_A_SIDE ON_A_SIDE).paste (bandOf X 540) 0 0).paste
      (bandOf Y 540) 0 540, ?_, rfl, rfl, ?_, ?_⟩
  · have hloop : editLoop 2 (ON_A_SIDE / 2) 0 [X, Y]
        (imageNew ON_A_SIDE ON_A_SIDE) 0 =
        .ok (((imageNew ON_A_SIDE ON_A_SIDE).paste (bandOf X 540) 0 0).paste
          (bandOf Y 540) 0 540, 1080) := by
      show editLoop 2 540 0 [X, Y] (imageNew ON_A_SIDE ON_A_SIDE) 0 = _
      rw [editLoop_cons_ok 2 540 0 X [Y] _ 0 _ _
        (editStep_eq_mid 2 540 0 X _ 0 hX hXr (by norm_num))]
      rw [editLoop_cons_ok 2 540 1 Y [] _ (0 + 540) _ _
        (editStep_eq_last 2 540 1 Y _ (0 + 540) hY hYr (by norm_num))]
      simp only [editLoop]
    simp only [edit_image, List.length_cons, List.length_nil]
    rw [if_neg (by norm_num)]
    rw [show editLoop (0 + 1 + 1) (ON_A_SIDE / (0 + 1 + 1)) 0 [X, Y]
        (imageNew ON_A_SIDE ON_A_SIDE) 0 = editLoop 2 (ON_A_SIDE / 2) 0 [X, Y]
        (imageNew ON_A_SIDE ON_A_SIDE) 0 from rfl]
    rw [hloop]
    exact if_pos ⟨rfl, rfl⟩
  · intro x y hx hy
    show (if 0 ≤ x ∧ x < 0 + (bandOf Y 540).width ∧ 540 ≤ y ∧
        y < 540 + (bandOf Y 540).height ∧
        x < ((imageNew ON_A_SIDE ON_A_SIDE).paste (bandOf X 540) 0 0).width ∧
        y < ((imageNew ON_A_SIDE ON_A_SIDE).paste (bandOf X 540) 0 0).height
      then (bandOf Y 540).pix (x - 0) (y - 540)
      else ((imageNew ON_A_SIDE ON_A_SIDE).paste (bandOf X 540) 0 0).pix x y)
      = (bandOf X 540).pix x y
    rw [if_neg (by omega)]
    show (if 0 ≤ x ∧ x < 0 + (bandOf X 540).width ∧ 0 ≤ y ∧
        y < 0 + (bandOf X 540).height ∧
        x < (imageNew ON_A_SIDE ON_A_SIDE).width ∧
        y < (imageNew ON_A_SIDE ON_A_SIDE).height
      then (bandOf X 540).pix (x - 0) (y - 0)
      else (imageNew ON_A_SIDE ON_A_SIDE).pix x y) = (bandOf X 540).pix x y
    rw [bandOf_width, bandOf_height, imageNew_width, imageNew_height]
    rw [if_pos (by simp only [ON_A_SIDE]; omega)]
    simp
  · intro x y hx hy1 hy2
    show (if 0 ≤ x ∧ x < 0 + (bandOf Y 540).width ∧ 540 ≤ y ∧
        y < 540 + (bandOf Y 540).height ∧
        x < ((imageNew ON_A_SIDE ON_A_SIDE).paste (bandOf X 540) 0 0).width ∧
        y < ((imageNew ON_A_SIDE ON_A_SIDE).paste (bandOf X 540) 0 0).height
      then (bandOf Y 540).pix (x - 0) (y - 540)
      else ((imageNew ON_A_SIDE ON_A_SIDE).paste (bandOf X 540) 0 0).pix x y)
      = (bandOf Y 540).pix x (y - 540)
    rw [bandOf_width, bandOf_height, paste_width, paste_height,
      imageNew_width, imageNew_height]
    rw [if_pos (by simp only [ON_A_SIDE]; omega)]
    simp

theorem cropStep_pix_in (image : Img) (aim x y : ℕ)
    (hx : (x : ℤ) < (image.width : ℤ))
    (h1 : 0 ≤ ((image.height : ℤ) - (aim : ℤ)).fdiv 2 + (y : ℤ))
    (h2 : ((image.height : ℤ) - (aim : ℤ)).fdiv 2 + (y : ℤ) <
      (image.height : ℤ)) :
    (cropStep image aim).pix x y =
      image.pix x ((((image.height : ℤ) - (aim : ℤ)).fdiv 2 + (y : ℤ)).toNat) := by
  simp only [cropStep, Img.crop]
  rw [if_pos ⟨by omega, by omega, h1, h2⟩]
  congr 1
  omega

/-- A 1080×1080 image whose top 270 rows are white (1) and whose
remaining rows are black: it differs from `sampleImg` only in rows that
the 540-row center crop discards. -/
def imgA : Img := ⟨1080, 1080, fun _ y => if y < 270 then 1 else 0⟩

/-- A 1080×1080 all-white source image. -/
def imgOnes : Img := ⟨1080, 1080, fun _ _ => 1⟩

theorem bandOf_pix_1080 (img : Img) (hw : img.width = 1080)
    (hh : img.height = 1080) (x y : ℕ) (hx : x < 1080) (hy : y < 540) :
    (bandOf img 540).pix x y = img.pix x (270 + y) := by
  have hsh : (scaleStep img).height = 1080 := by
    show resizeHeight img.width img.height = 1080
    rw [hw, hh]
    decide
  have hu : (((scaleStep img).height : ℤ) - ((540 : ℕ) : ℤ)).fdiv 2 = 270 := by
    rw [hsh]; decide
  have hx' : (x : ℤ) < ((scaleStep img).width : ℤ) := by
    show (x : ℤ) < ((ON_A_SIDE : ℕ) : ℤ)
    simp only [ON_A_SIDE]; omega
  have h1 : 0 ≤ (((scaleStep img).height : ℤ) - ((540 : ℕ) : ℤ)).fdiv 2 +
      (y : ℤ) := by
    rw [hu]; omega
  have h2 : (((scaleStep img).height : ℤ) - ((540 : ℕ) : ℤ)).fdiv 2 +
      (y : ℤ) < ((scaleStep img).height : ℤ) := by
    rw [hu, hsh]; omega
  show (cropStep (scaleStep img) 540).pix x y = img.pix x (270 + y)
  rw [cropStep_pix_in (scaleStep img) 540 x y hx' h1 h2, hu]
  rw [show (((270 : ℤ)) + (y : ℤ)).toNat = 270 + y from by omega]
  show img.pix (x * img.width / ON_A_SIDE)
    ((270 + y) * img.height / resizeHeight img.width img.height) =
    img.pix x (270 + y)
  have e1 : x * 1080 / ON_A_SIDE = x := by
    simp only [ON_A_SIDE]
    exact Nat.mul_div_cancel x (by norm_num)
  have e2 : (270 + y) * 1080 / resizeHeight 1080 1080 = 270 + y := by
    rw [show resizeHeight 1080 1080 = 1080 from by decide]
    exact Nat.mul_div_cancel (270 + y) (by norm_num)
  rw [hw, hh, e1, e2]

theorem band_imgA_eq_sample (x y : ℕ) (hx : x < 1080) (hy : y < 540) :
    (bandOf imgA 540).pix x y = (bandOf sampleImg 540).pix x y := by
  rw [bandOf_pix_1080 imgA rfl rfl x y hx hy,
    bandOf_pix_1080 sampleImg rfl rfl x y hx hy]
  show (if 270 + y < 270 then 1 else 0) = 0
  rw [if_neg (by omega)]

/-- C9 counterexample: `imgA` and `sampleImg` are distinct images (they
differ at in-range pixel (0,0)), yet composing `[imgA, sampleImg]` and
`[sampleImg, imgA]` yields pixel-identical output canvases, because the
two images differ only in rows that the center crop discards.  So
distinctness of the inputs does not imply distinct composites. -/
theorem C9_counterexample_crop_margin :
    imgA ≠ sampleImg ∧
      pixEqE (edit_image [imgA, sampleImg]) (edit_image [sampleImg, imgA]) := by
  constructor
  · intro h
    have h0 := congrArg (fun im => im.pix 0 0) h
    simp [imgA, sampleImg] at h0
  · obtain ⟨C1, hC1, hw1d, hh1d, htop1, hbot1⟩ :=
      edit_image_pair imgA sampleImg (by simp [imgA]) (by simp [sampleImg])
        (by decide) (by decide)
    obtain ⟨C2, hC2, hw2d, hh2d, htop2, hbot2⟩ :=
      edit_image_pair sampleImg imgA (by simp [sampleImg]) (by simp [imgA])
        (by decide) (by decide)
    rw [hC1, hC2]
    show pixEq C1 C2
    refine ⟨by rw [hw1d, hw2d], by rw [hh1d, hh2d], ?_⟩
    intro x y hx hy
    rw [hw1d] at hx
    rw [hh1d] at hy
    replace hx : x < 1080 := hx
    replace hy : y < 1080 := hy
    rcases Nat.lt_or_ge y 540 with hlt | hge
    · rw [htop1 x y hx hlt, htop2 x y hx hlt]
      exact band_imgA_eq_sample x y hx hlt
    · rw [hbot1 x y hx hge hy, hbot2 x y hx hge hy]
      exact (band_imgA_eq_sample x (y - 540) hx (by omega)).symm

/-- C9 amended: for images that compose at all (positive width,
non-zero computed resize height), composing `[A, B]` and `[B, A]`
yields different (not pixel-identical) canvases whenever the
center-cropped bands of A and B differ at some in-range pixel — mere
distinctness of A and B is not enough, since pixels outside the cropped
band never reach the output. -/
theorem C9_order_sensitive (X Y : Img) (hX : 0 < X.width) (hY : 0 < Y.width)
    (hXr : resizeHeight X.width X.height ≠ 0)
    (hYr : resizeHeight Y.width Y.height ≠ 0)
    (x y : ℕ) (hx : x < ON_A_SIDE) (hy : y < 540)
    (hne : (bandOf X 540).pix x y ≠ (bandOf Y 540).pix x y) :
    ¬ pixEqE (edit_image [X, Y]) (edit_image [Y, X]) := by
  obtain ⟨C1, hC1, hw1d, hh1d, htop1, _⟩ :=
    edit_image_pair X Y (by omega) (by omega) hXr hYr
  obtain ⟨C2, hC2, hw2d, hh2d, htop2, _⟩ :=
    edit_image_pair Y X (by omega) (by omega) hYr hXr
  rw [hC1, hC2]
  intro hpe
  have hpq : pixEq C1 C2 := hpe
  obtain ⟨_, _, hpix⟩ := hpq
  have hx' : x < 1080 := hx
  have h := hpix x y (by rw [hw1d]; exact hx)
    (by rw [hh1d]; show y < 1080; omega)
  rw [htop1 x y hx' hy, htop2 x y hx' hy] at h
  exact hne h

/-- C9 witness: the amended theorem applied to an all-white and an
all-black 1080×1080 image, whose cropped bands differ at (0,0). -/
theorem C9_witness :
    (0 < imgOnes.width ∧ 0 < sampleImg.width ∧
      resizeHeight imgOnes.width imgOnes.height ≠ 0 ∧
      resizeHeight sampleImg.width sampleImg.height ≠ 0 ∧
      (0 : ℕ) < ON_A_SIDE ∧ (0 : ℕ) < 540 ∧
      (bandOf imgOnes 540).pix 0 0 ≠ (bandOf sampleImg 540).pix 0 0) ∧
      ¬ pixEqE (edit_image [imgOnes, sampleImg])
        (edit_image [sampleImg, imgOnes]) :=
  ⟨⟨by simp [imgOnes], by simp [sampleImg], by decide, by decide,
      by norm_num [ON_A_SIDE], by norm_num, by decide⟩,
    C9_order_sensitive imgOnes sampleImg (by simp [imgOnes])
      (by simp [sampleImg]) (by decide) (by decide) 0 0
      (by norm_num [ON_A_SIDE]) (by norm_num) (by decide)⟩

/-- C10: the crop box `(0, (h−aim)//2, ON_A_SIDE, (h+aim)//2)` has height
exactly `aim` and width exactly `ON_A_SIDE` for every scaled height and
every target `aim` — also when the scaled image is shorter than the band
— and any pixel whose source coordinate falls outside the image (above,
below, or right of it) is black (0), PIL's padding.  Hence every pasted
band has exactly its target height, for arbitrary input image heights. -/
theorem C10_crop_always_target (img : Img) (aim x y : ℕ)
    (hy : ((img.height : ℤ) - (aim : ℤ)).fdiv 2 + (y : ℤ) < 0 ∨
      (img.height : ℤ) ≤ ((img.height : ℤ) - (aim : ℤ)).fdiv 2 + (y : ℤ) ∨
      (img.width : ℤ) ≤ (x : ℤ)) :
    (cropStep img aim).height = aim ∧
      (cropStep img aim).width = ON_A_SIDE ∧
      (cropStep img aim).pix x y = 0 := by
  refine ⟨cropStep_height img aim, cropStep_width img aim, ?_⟩
  simp only [cropStep, Img.crop]
  rw [if_neg (by omega)]

/-- C10 witness: the theorem applied to a 1080-tall image and an
over-tall band target `aim = 2000 > 1080`: the crop still has height
2000, and the top padding row (0,0) is black. -/
theorem C10_witness :
    (((sampleImg.height : ℤ) - ((2000 : ℕ) : ℤ)).fdiv 2 + ((0 : ℕ) : ℤ) < 0 ∨
      (sampleImg.height : ℤ) ≤
        ((sampleImg.height : ℤ) - ((2000 : ℕ) : ℤ)).fdiv 2 + ((0 : ℕ) : ℤ) ∨
      (sampleImg.width : ℤ) ≤ ((0 : ℕ) : ℤ)) ∧
      ((cropStep sampleImg 2000).height = 2000 ∧
        (cropStep sampleImg 2000).width = ON_A_SIDE ∧
        (cropStep sampleImg 2000).pix 0 0 = 0) :=
  ⟨by decide, C10_crop_always_target sampleImg 2000 0 0 (by decide)⟩

end PhotoBot
